import Mathlib

/-!
Verification development for the stem-separation pipeline scripts of this
repository: `scripts/stem-split-melodies.py` (6-stem melody pipeline with
second-pass refinement, optional cleanup, and completeness-fill),
`scripts/stem-split.py` (4-stem pipeline), and `scripts/stem-split-vocals.py`
(lead/backing vocal classifier and padding helper).

Modelling conventions:
* Python `float` arithmetic is modelled by exact rational arithmetic over
  `ℚ`; every concrete value appearing in the statements below is exact in
  IEEE double as well, so the model and the scripts agree on them.
* Python 3 `round` (round half to even) is modelled by `pyRound`.
* Python exceptions of the modelled fragments are modelled by `Option`.
* File-system and engine behaviour observed by the orchestrating `main`
  functions is abstracted into environment structures; the control flow of
  `main` is translated branch by branch.
-/

/-- Saturation of an integer to the signed 16-bit range, written inline in
`stem-split-melodies.py` as `max(-32768, min(32767, x))`. -/
def clamp16 (x : ℤ) : ℤ := max (-32768) (min 32767 x)

/-- Python 3 `round` on a real value, modelled over `ℚ`: round to nearest,
ties to the even integer. -/
def pyRound (q : ℚ) : ℤ :=
  if q - (⌊q⌋ : ℚ) < 1/2 then ⌊q⌋
  else if 1/2 < q - (⌊q⌋ : ℚ) then ⌊q⌋ + 1
  else if ⌊q⌋ % 2 = 0 then ⌊q⌋ else ⌊q⌋ + 1

/-- `max(abs(s) for s in samples)`, with value `0` on the empty list (the
script only evaluates this maximum on nonempty lists, where the two agree
because every `abs` is nonnegative). -/
def listMaxAbs (l : List ℤ) : ℤ := l.foldr (fun s m => max |s| m) 0

/-- `_normalize_16bit` from `stem-split-melodies.py`: return the input
unchanged when it is empty or its maximum absolute value is `0`; otherwise
scale every sample by `32767 / max_abs`, round, and clamp to the 16-bit
range. -/
def normalize_16bit (samples : List ℤ) : List ℤ :=
  if samples = [] then samples
  else if listMaxAbs samples ≤ 0 then samples
  else samples.map (fun s : ℤ => clamp16 (pyRound ((s : ℚ) * (32767 / (listMaxAbs samples : ℚ)))))

/-- In-memory PCM signal as produced by `_load_wav_samples`: channel count,
sample rate, interleaved 16-bit samples. -/
structure Wav16 where
  nch : ℕ
  sr : ℕ
  samples : List ℤ
deriving DecidableEq

/-- The sample arithmetic of the second-pass refinement in
`stem-split-melodies.py` (`main`): trim the three signals (main guitar,
other, extracted guitar) to the common length
`min(len(g1), len(o1), len(g2))`, then
`guitar_new = _normalize_16bit([a + b for a, b in zip(g1, g2)])` and
`other_new = _normalize_16bit([a - b for a, b in zip(o1, g2)])`.  The raw
sums and differences are handed to `_normalize_16bit` directly, with no
prior clamping. -/
def refineCompute (g1 o1 g2 : List ℤ) : List ℤ × List ℤ :=
  let m := min (min g1.length o1.length) g2.length
  (normalize_16bit (List.zipWith (fun a b => a + b) (g1.take m) (g2.take m)),
   normalize_16bit (List.zipWith (fun a b => a - b) (o1.take m) (g2.take m)))

/-- The refinement stage including its format guard
`(nch1, sr1) == (nch2, sr2) == (nch3, sr3)`: `none` models the skipped
stage (warning printed, primary outputs untouched). -/
def refineStep (g o e : Wav16) : Option (List ℤ × List ℤ) :=
  if (g.nch, g.sr) = (o.nch, o.sr) ∧ (o.nch, o.sr) = (e.nch, e.sr) then
    some (refineCompute g.samples o.samples e.samples)
  else none

/-- Modelled from the spec (Signal Combiner `add`): elementwise sum over the
first `min(len(a), len(b))` samples; `List.zipWith` trims to the shorter
list. -/
def specAdd (a b : List ℤ) : List ℤ := List.zipWith (fun x y => x + y) a b

/-- Modelled from the spec (Signal Combiner `subtract`): elementwise
difference with the same trimming policy. -/
def specSub (a b : List ℤ) : List ℤ := List.zipWith (fun x y => x - y) a b

/-- Modelled from the spec (Signal Combiner `scaled_subtract`):
`a[i] - alpha * (b[i] + c[i])` over the common trimmed length, rounded to
nearest. -/
def specScaledSub (alpha : ℚ) (a b c : List ℤ) : List ℤ :=
  List.zipWith (fun (x yz : ℤ) => pyRound ((x : ℚ) - alpha * (yz : ℚ)))
    a (List.zipWith (fun y z => y + z) b c)

/-- The refinement formula exactly as claim C1 words it: each raw sum and
difference is saturated by `clamp16` BEFORE `normalize_peak` rescales it. -/
def refineComputeClaimed (g1 o1 g2 : List ℤ) : List ℤ × List ℤ :=
  let m := min (min g1.length o1.length) g2.length
  (normalize_16bit ((specAdd (g1.take m) (g2.take m)).map clamp16),
   normalize_16bit ((specSub (o1.take m) (g2.take m)).map clamp16))

/-- The guitar-cleanup arithmetic of `stem-split-melodies.py` (`main`): trim
guitar, extracted piano and extracted other to the common length, compute
`max(-32768, min(32767, int(round(a - alpha * (b + c)))))` elementwise, then
apply `_normalize_16bit`. -/
def cleanupCompute (alpha : ℚ) (g p o : List ℤ) : List ℤ :=
  let m := min (min g.length p.length) o.length
  normalize_16bit
    (List.zipWith (fun (a s : ℤ) => clamp16 (pyRound ((a : ℚ) - alpha * (s : ℚ))))
      (g.take m) (List.zipWith (fun b c => b + c) (p.take m) (o.take m)))

/-- The cleanup attenuation coefficient:
`alpha = float(os.environ.get(KEY, "0.6"))` guarded by
`except (TypeError, ValueError): alpha = 0.6`.  The outer `Option` is
presence of the environment variable, the inner `Option` is whether its
text parses as a float (text-to-float parsing is abstracted; the default
text parses to `0.6 = 3/5`). -/
def cleanupAlpha : Option (Option ℚ) → ℚ
  | none => 3/5
  | some none => 3/5
  | some (some a) => a

/-- `struct.pack` of one sample for format `h`: two little-endian bytes of
the 16-bit two's-complement representation.  Out-of-range handling is
modelled at the call site in `write_wav_samples`. -/
def packInt16 (s : ℤ) : List ℕ :=
  [(s % 65536).toNat % 256, (s % 65536).toNat / 256]

/-- `struct.unpack` of one sample for format `h` from two little-endian
bytes. -/
def unpackInt16 (b0 b1 : ℕ) : ℤ :=
  if b0 + 256 * b1 < 32768 then ((b0 + 256 * b1 : ℕ) : ℤ)
  else ((b0 + 256 * b1 : ℕ) : ℤ) - 65536

/-- Decode a byte string two bytes at a time, as
`struct.unpack` with `len(data) // 2` copies of format `h` does. -/
def bytesToSamples : List ℕ → List ℤ
  | b0 :: b1 :: rest => unpackInt16 b0 b1 :: bytesToSamples rest
  | _ => []

/-- A WAV file as the `wave` module sees it: header fields plus the raw
data bytes.  `nframes` is the frame count stored in the header, computed on
write as `len(data) // (sampwidth * nchannels)`. -/
structure WavData where
  nch : ℕ
  sampw : ℕ
  sr : ℕ
  nframes : ℕ
  bytes : List ℕ
deriving DecidableEq

/-- Range test performed by `struct.pack` for format `h`: a sample is
accepted exactly when it fits the signed 16-bit range. -/
def fitsInt16 (s : ℤ) : Bool := decide (-32768 ≤ s) && decide (s ≤ 32767)

/-- `_write_wav_samples` from `stem-split-melodies.py`: `none` models the
`struct.error` raised when a sample is out of the 16-bit range; otherwise
the `wave` module stores the header fields (sample width fixed at 2) and
the packed bytes. -/
def write_wav_samples (nch sr : ℕ) (samples : List ℤ) : Option WavData :=
  if samples.all fitsInt16 then
    some ⟨nch, 2, sr, (2 * samples.length) / (2 * nch), (samples.map packInt16).flatten⟩
  else none

/-- `_load_wav_samples` from `stem-split-melodies.py`: fails (raises
`ValueError`) unless the sample width is 2; otherwise reads `nframes`
frames, i.e. `nframes * sampwidth * nchannels` bytes, and unpacks them as
16-bit samples. -/
def load_wav_samples (w : WavData) : Option (ℕ × ℕ × List ℤ) :=
  if w.sampw = 2 then
    some (w.nch, w.sr, bytesToSamples (w.bytes.take (w.nframes * (w.sampw * w.nch))))
  else none

/-- `pad_audio_if_needed` from `stem-split-vocals.py`.  The Bool is `true`
when a padded copy was written to `out_path` (and that path returned),
`false` when the original path is returned with nothing written.
`duration = nframes / float(sr) if sr else 0` and
`int(MIN_DURATION_SEC * sr)` are modelled exactly over `ℚ`; both are exact
in IEEE double for every value a WAV header can hold. -/
def pad_audio_if_needed (w : WavData) : Bool × WavData :=
  let duration : ℚ := if w.sr = 0 then 0 else (w.nframes : ℚ) / (w.sr : ℚ)
  if 10 ≤ duration then (false, w)
  else
    let need : ℤ := 10 * (w.sr : ℤ) - (w.nframes : ℤ)
    if need ≤ 0 then (false, w)
    else
      let origBytes := w.bytes.take (w.nframes * (w.sampw * w.nch))
      let newBytes := origBytes ++ List.replicate (need.toNat * w.nch * w.sampw) 0
      (true, ⟨w.nch, w.sampw, w.sr, newBytes.length / (w.sampw * w.nch), newBytes⟩)

/-- Bool test: `sub` is an initial segment of the second list. -/
def isPrefixList : List Char → List Char → Bool
  | [], _ => true
  | _ :: _, [] => false
  | a :: as, b :: bs => a == b && isPrefixList as bs

/-- Python `sub in hay` on strings: contiguous-substring test. -/
def containsSub (sub : List Char) : List Char → Bool
  | [] => sub.isEmpty
  | c :: cs => isPrefixList sub (c :: cs) || containsSub sub cs

/-- One engine output file of the vocal separator: `path` is the element of
`output_files`; `base` carries the precomputed
`os.path.basename(path).lower()` that the heuristics test. -/
structure OutFile where
  path : String
  base : String
deriving DecidableEq

/-- The lead-vocal substring heuristics of `stem-split-vocals.py`, in source
order. -/
def leadMatch (base : String) : Bool :=
  containsSub "lead".data base.data || containsSub "main".data base.data
    || containsSub "solo".data base.data || containsSub "(vocals)".data base.data
    || containsSub "_vocal".data base.data || containsSub "vocal_".data base.data

/-- The backing-vocal substring heuristics of `stem-split-vocals.py`, in
source order. -/
def backMatch (base : String) : Bool :=
  containsSub "backing".data base.data || containsSub "accompaniment".data base.data
    || containsSub "harmony".data base.data || containsSub "bg".data base.data
    || containsSub "(instrumental)".data base.data || containsSub "(other)".data base.data
    || containsSub "instrumental".data base.data || containsSub "no_vocal".data base.data

/-- One iteration of the classification loop: `if not lead_src and <lead
pattern>: lead_src = f; elif not backing_src and <backing pattern>:
backing_src = f`. -/
def classifyStep (f : OutFile) (l b : Option OutFile) : Option OutFile × Option OutFile :=
  if l.isNone && leadMatch f.base then (some f, b)
  else if b.isNone && backMatch f.base then (l, some f)
  else (l, b)

/-- The classification loop of `stem-split-vocals.py`: first-match-wins per
role, a file is not tested for the backing role in the same iteration that
assigned it the lead role, and the loop breaks once both roles are
assigned. -/
def classifyLoop : List OutFile → Option OutFile → Option OutFile → Option OutFile × Option OutFile
  | [], l, b => (l, b)
  | f :: fs, l, b =>
    if (classifyStep f l b).1.isSome && (classifyStep f l b).2.isSome then classifyStep f l b
    else classifyLoop fs (classifyStep f l b).1 (classifyStep f l b).2

/-- The classifier with its positional fallback: when at least two files
were produced and the heuristics left a role unassigned (or assigned the
same file twice), the first produced file becomes lead and the second
becomes backing. -/
def classifyFiles (fs : List OutFile) : Option OutFile × Option OutFile :=
  let lb := classifyLoop fs none none
  match fs with
  | f0 :: f1 :: _ =>
    if lb.1 = none ∨ lb.2 = none ∨ lb.1 = lb.2 then (some f0, some f1) else lb
  | _ => lb

/-- The three melody roles of the `stem-split-melodies.py` pipeline. -/
def melodiesRoles : List String := ["guitar", "piano", "other"]

/-- The four roles of the `stem-split.py` pipeline. -/
def fourStemRoles : List String := ["vocals", "drums", "bass", "other"]

/-- Captured outcome of one external engine invocation,
`subprocess.run(cmd, capture_output=True, text=True)`. -/
structure EngineOutcome where
  returncode : ℤ
  stderrText : String
  stdoutText : String
deriving DecidableEq

/-- `result.stderr or result.stdout`: Python `or` yields the second operand
when the first is the empty string. -/
def diagOf (e : EngineOutcome) : String :=
  if e.stderrText = "" then e.stdoutText else e.stderrText

/-- The external behaviour one `stem-split-melodies.py` run observes:
primary engine call, output-layout discovery, which non-marker stems the
engine produced, and the corresponding observations for the optional
refinement and cleanup stages.  The track directory found by the marker
search always contains `guitar.wav` (the marker itself). -/
structure MelodiesEnv where
  primary : EngineOutcome
  htdemucsDirFound : Bool
  trackDirFound : Bool
  hasPiano : Bool
  hasOther : Bool
  secondPass : EngineOutcome
  secondTrackFound : Bool
  formatsMatch : Bool
  cleanupFlag : Bool
  cleanupPass : EngineOutcome
deriving DecidableEq

/-- Observable result of a pipeline run: process exit code, lines written
to the error stream, whether the success token `ok` was printed, which
optional stages issued their engine call, whether the completeness-fill
loop ran, and the role files existing at the end. -/
structure PipelineResult where
  exitCode : ℤ
  errLines : List String
  printedOk : Bool
  refinementAttempted : Bool
  cleanupAttempted : Bool
  fillRan : Bool
  finalStems : List String
deriving DecidableEq

/-- The completeness-fill loop of `stem-split-melodies.py`: `fill_src` is
the first role file (in role order) that exists; it is copied over every
missing role, so afterwards every role exists whenever any role existed
before. -/
def completenessFill (present : List String) : List String :=
  match melodiesRoles.find? (fun r => present.contains r) with
  | none => present
  | some _ => melodiesRoles

/-- `stem-split-melodies.py` `main` after argument validation, as a
function of the observed external behaviour.  The refinement and cleanup
stages only rewrite the contents of files that already exist, so the
role-presence bookkeeping is exact; their sample arithmetic is modelled
separately by `refineCompute` and `cleanupCompute`. -/
def melodiesRun (e : MelodiesEnv) : PipelineResult :=
  if e.primary.returncode ≠ 0 then
    ⟨e.primary.returncode, [diagOf e.primary], false, false, false, false, []⟩
  else if e.htdemucsDirFound = false then
    ⟨1, ["Expected subdir htdemucs_6s not found"], false, false, false, false, []⟩
  else if e.trackDirFound = false then
    ⟨1, ["Could not find 6-stem outputs in htdemucs_6s subdir"], false, false, false, false, []⟩
  else
    let present := ["guitar"]
      ++ (if e.hasPiano then ["piano"] else [])
      ++ (if e.hasOther then ["other"] else [])
    let refWarn : List String :=
      if e.hasOther then
        if e.secondPass.returncode ≠ 0 then
          ["Warning: guitar refinement skipped (second demucs run failed)"]
        else if e.secondTrackFound = true ∧ e.formatsMatch = false then
          ["Warning: guitar refinement skipped (format mismatch)"]
        else []
      else []
    let cleanWarn : List String :=
      if e.cleanupFlag = true ∧ e.cleanupPass.returncode ≠ 0 then
        ["Warning: guitar cleanup skipped (demucs run failed)"]
      else []
    ⟨0, refWarn ++ cleanWarn, true, e.hasOther, e.cleanupFlag, true, completenessFill present⟩

/-- The external behaviour one `stem-split.py` run observes.  The track
directory found by the marker search always contains `vocals.wav` (the
marker itself); `drums`, `bass`, `other` may be absent. -/
structure SplitEnv where
  primary : EngineOutcome
  htdemucsDirFound : Bool
  trackDirFound : Bool
  hasDrums : Bool
  hasBass : Bool
  hasOther : Bool
deriving DecidableEq

/-- `stem-split.py` `main` after argument validation.  There is no
completeness-fill and no warning stage: exactly the stems the engine
produced are copied out, then the success token is printed. -/
def splitRun (e : SplitEnv) : PipelineResult :=
  if e.primary.returncode ≠ 0 then
    ⟨e.primary.returncode, [diagOf e.primary], false, false, false, false, []⟩
  else if e.htdemucsDirFound = false then
    ⟨1, ["Expected subdir htdemucs not found"], false, false, false, false, []⟩
  else if e.trackDirFound = false then
    ⟨1, ["Could not find stem outputs in htdemucs subdir"], false, false, false, false, []⟩
  else
    ⟨0, [], true, false, false, false,
      ["vocals"] ++ (if e.hasDrums then ["drums"] else [])
        ++ (if e.hasBass then ["bass"] else [])
        ++ (if e.hasOther then ["other"] else [])⟩

/-! ### Basic facts about `clamp16`, `pyRound` and `listMaxAbs` -/

theorem clamp16_of_mem {x : ℤ} (h1 : -32768 ≤ x) (h2 : x ≤ 32767) : clamp16 x = x := by
  unfold clamp16
  rw [min_eq_right h2, max_eq_right h1]

theorem clamp16_lower (x : ℤ) : -32768 ≤ clamp16 x := le_max_left _ _

theorem clamp16_upper (x : ℤ) : clamp16 x ≤ 32767 :=
  max_le (by norm_num) (min_le_left _ _)

theorem pyRound_intCast (n : ℤ) : pyRound (n : ℚ) = n := by
  unfold pyRound
  rw [Int.floor_intCast]
  norm_num

theorem pyRound_le {q : ℚ} {n : ℤ} (h : q ≤ (n : ℚ)) : pyRound q ≤ n := by
  have hfl : ⌊q⌋ ≤ n := by
    have := Int.floor_le_floor h
    rwa [Int.floor_intCast] at this
  have hplus : ¬(q - (⌊q⌋ : ℚ) < 1/2) → ⌊q⌋ + 1 ≤ n := by
    intro hge
    by_contra hcon
    have heq : ⌊q⌋ = n := by omega
    have hle0 : q - (⌊q⌋ : ℚ) ≤ 0 := by
      rw [heq]
      linarith
    exact hge (by linarith)
  unfold pyRound
  by_cases h1 : q - (⌊q⌋ : ℚ) < 1/2
  · rw [if_pos h1]; exact hfl
  · rw [if_neg h1]
    by_cases h2 : (1:ℚ)/2 < q - (⌊q⌋ : ℚ)
    · rw [if_pos h2]; exact hplus h1
    · rw [if_neg h2]
      by_cases h3 : ⌊q⌋ % 2 = 0
      · rw [if_pos h3]; exact hfl
      · rw [if_neg h3]; exact hplus h1

theorem pyRound_branches (q : ℚ) : pyRound q = ⌊q⌋ ∨ pyRound q = ⌊q⌋ + 1 := by
  unfold pyRound
  by_cases h1 : q - (⌊q⌋ : ℚ) < 1/2
  · rw [if_pos h1]; exact Or.inl rfl
  · rw [if_neg h1]
    by_cases h2 : (1:ℚ)/2 < q - (⌊q⌋ : ℚ)
    · rw [if_pos h2]; exact Or.inr rfl
    · rw [if_neg h2]
      by_cases h3 : ⌊q⌋ % 2 = 0
      · rw [if_pos h3]; exact Or.inl rfl
      · rw [if_neg h3]; exact Or.inr rfl

theorem le_pyRound {q : ℚ} {n : ℤ} (h : (n : ℚ) ≤ q) : n ≤ pyRound q := by
  have hfl : n ≤ ⌊q⌋ := Int.le_floor.mpr h
  rcases pyRound_branches q with hb | hb <;> rw [hb] <;> omega

theorem listMaxAbs_nil : listMaxAbs [] = 0 := rfl

theorem listMaxAbs_cons (a : ℤ) (t : List ℤ) :
    listMaxAbs (a :: t) = max |a| (listMaxAbs t) := rfl

theorem listMaxAbs_nonneg (l : List ℤ) : 0 ≤ listMaxAbs l := by
  induction l with
  | nil => exact le_refl 0
  | cons a t ih =>
    rw [listMaxAbs_cons]
    exact le_trans ih (le_max_right _ _)

theorem abs_le_listMaxAbs {x : ℤ} {l : List ℤ} (h : x ∈ l) : |x| ≤ listMaxAbs l := by
  induction l with
  | nil => cases h
  | cons a t ih =>
    rw [listMaxAbs_cons]
    rcases List.mem_cons.mp h with rfl | ht
    · exact le_max_left _ _
    · exact le_trans (ih ht) (le_max_right _ _)

theorem listMaxAbs_le {l : List ℤ} {B : ℤ} (hB : 0 ≤ B) (h : ∀ x ∈ l, |x| ≤ B) :
    listMaxAbs l ≤ B := by
  induction l with
  | nil => exact hB
  | cons a t ih =>
    rw [listMaxAbs_cons]
    exact max_le (h a (List.mem_cons_self a t)) (ih fun x hx => h x (List.mem_cons_of_mem a hx))

theorem exists_abs_eq_listMaxAbs {l : List ℤ} (h : l ≠ []) :
    ∃ x ∈ l, |x| = listMaxAbs l := by
  induction l with
  | nil => exact absurd rfl h
  | cons a t ih =>
    cases t with
    | nil =>
      refine ⟨a, List.mem_cons_self a [], ?_⟩
      rw [listMaxAbs_cons, listMaxAbs_nil, max_eq_left (abs_nonneg a)]
    | cons b t2 =>
      rcases ih (by simp) with ⟨x, hx, hxe⟩
      rcases le_total (listMaxAbs (b :: t2)) |a| with hle | hle
      · exact ⟨a, List.mem_cons_self a _, by rw [listMaxAbs_cons, max_eq_left hle]⟩
      · exact ⟨x, List.mem_cons_of_mem a hx, by rw [listMaxAbs_cons, max_eq_right hle, hxe]⟩

theorem eq_zero_of_listMaxAbs_eq_zero {l : List ℤ} (h : listMaxAbs l = 0) :
    ∀ x ∈ l, x = 0 := by
  intro x hx
  have h1 : |x| ≤ 0 := h ▸ abs_le_listMaxAbs hx
  have h2 : 0 ≤ |x| := abs_nonneg x
  exact abs_eq_zero.mp (le_antisymm h1 h2)

theorem listMaxAbs_of_all_zero {l : List ℤ} (h : ∀ x ∈ l, x = 0) : listMaxAbs l = 0 := by
  refine le_antisymm (listMaxAbs_le (le_refl 0) fun x hx => ?_) (listMaxAbs_nonneg l)
  rw [h x hx]
  exact le_refl 0

/-! ### Behaviour of `_normalize_16bit` -/

theorem normalize_16bit_nil : normalize_16bit [] = [] := rfl

theorem normalize_16bit_of_maxAbs_eq_zero {s : List ℤ} (h : listMaxAbs s = 0) :
    normalize_16bit s = s := by
  unfold normalize_16bit
  by_cases he : s = []
  · rw [if_pos he]
  · rw [if_neg he, if_pos (by rw [h])]

theorem normalize_16bit_eq_map {s : List ℤ} (hne : s ≠ []) (h : 0 < listMaxAbs s) :
    normalize_16bit s =
      s.map (fun x : ℤ => clamp16 (pyRound ((x : ℚ) * (32767 / (listMaxAbs s : ℚ))))) := by
  unfold normalize_16bit
  rw [if_neg hne, if_neg (not_le.mpr h)]

theorem norm_elem_bounds {M x : ℤ} (hM : 0 < M) (hx : |x| ≤ M) :
    -32767 ≤ clamp16 (pyRound ((x : ℚ) * (32767 / (M : ℚ)))) ∧
      clamp16 (pyRound ((x : ℚ) * (32767 / (M : ℚ)))) ≤ 32767 := by
  have hMq : (0 : ℚ) < (M : ℚ) := by exact_mod_cast hM
  have hscale : (0 : ℚ) < 32767 / (M : ℚ) := div_pos (by norm_num) hMq
  have hxu : (x : ℚ) ≤ (M : ℚ) := by exact_mod_cast le_of_abs_le hx
  have hxl : (-(M : ℚ)) ≤ (x : ℚ) := by exact_mod_cast neg_le_of_abs_le hx
  have hMul : (M : ℚ) * (32767 / (M : ℚ)) = 32767 := by
    rw [mul_comm]
    exact div_mul_cancel₀ 32767 (ne_of_gt hMq)
  have hub : (x : ℚ) * (32767 / (M : ℚ)) ≤ ((32767 : ℤ) : ℚ) := by
    have := mul_le_mul_of_nonneg_right hxu (le_of_lt hscale)
    rw [hMul] at this
    exact_mod_cast this
  have hlb : ((-32767 : ℤ) : ℚ) ≤ (x : ℚ) * (32767 / (M : ℚ)) := by
    have := mul_le_mul_of_nonneg_right hxl (le_of_lt hscale)
    rw [neg_mul, hMul] at this
    push_cast
    linarith
  have hru : pyRound ((x : ℚ) * (32767 / (M : ℚ))) ≤ 32767 := pyRound_le hub
  have hrl : (-32767 : ℤ) ≤ pyRound ((x : ℚ) * (32767 / (M : ℚ))) := le_pyRound hlb
  rw [clamp16_of_mem (by omega) hru]
  exact ⟨hrl, hru⟩

theorem norm_elem_peak {M x : ℤ} (hM : 0 < M) (hx : |x| = M) :
    clamp16 (pyRound ((x : ℚ) * (32767 / (M : ℚ)))) = 32767 ∨
      clamp16 (pyRound ((x : ℚ) * (32767 / (M : ℚ)))) = -32767 := by
  have hMq : (0 : ℚ) < (M : ℚ) := by exact_mod_cast hM
  have hMul : (M : ℚ) * (32767 / (M : ℚ)) = 32767 := by
    rw [mul_comm]
    exact div_mul_cancel₀ 32767 (ne_of_gt hMq)
  rcases (abs_eq (le_of_lt hM)).mp hx with h1 | h1
  · left
    have hq : (x : ℚ) * (32767 / (M : ℚ)) = ((32767 : ℤ) : ℚ) := by
      rw [h1]
      exact_mod_cast hMul
    rw [hq, pyRound_intCast]
    exact clamp16_of_mem (by norm_num) (by norm_num)
  · right
    have hq : (x : ℚ) * (32767 / (M : ℚ)) = ((-32767 : ℤ) : ℚ) := by
      rw [h1]
      push_cast
      rw [neg_mul]
      rw [hMul]
    rw [hq, pyRound_intCast]
    exact clamp16_of_mem (by norm_num) (by norm_num)

theorem normalize_16bit_bounds {s : List ℤ} (h : listMaxAbs s ≠ 0) :
    ∀ y ∈ normalize_16bit s, -32767 ≤ y ∧ y ≤ 32767 := by
  have hne : s ≠ [] := by
    rintro rfl
    exact h listMaxAbs_nil
  have hpos : 0 < listMaxAbs s := lt_of_le_of_ne (listMaxAbs_nonneg s) (Ne.symm h)
  rw [normalize_16bit_eq_map hne hpos]
  intro y hy
  rcases List.mem_map.mp hy with ⟨x, hx, rfl⟩
  exact norm_elem_bounds hpos (abs_le_listMaxAbs hx)

theorem normalize_16bit_peak {s : List ℤ} (h : listMaxAbs s ≠ 0) :
    listMaxAbs (normalize_16bit s) = 32767 := by
  have hne : s ≠ [] := by
    rintro rfl
    exact h listMaxAbs_nil
  have hpos : 0 < listMaxAbs s := lt_of_le_of_ne (listMaxAbs_nonneg s) (Ne.symm h)
  refine le_antisymm ?_ ?_
  · refine listMaxAbs_le (by norm_num) fun y hy => ?_
    have hb := normalize_16bit_bounds h y hy
    rw [abs_le]
    exact ⟨by omega, hb.2⟩
  · rcases exists_abs_eq_listMaxAbs hne with ⟨x, hx, hxe⟩
    rw [normalize_16bit_eq_map hne hpos]
    have hmem : clamp16 (pyRound ((x : ℚ) * (32767 / (listMaxAbs s : ℚ)))) ∈
        s.map (fun x : ℤ => clamp16 (pyRound ((x : ℚ) * (32767 / (listMaxAbs s : ℚ))))) :=
      List.mem_map_of_mem _ hx
    rcases norm_elem_peak hpos hxe with hpk | hpk
    · rw [hpk] at hmem
      have h32 := abs_le_listMaxAbs hmem
      rwa [abs_of_nonneg (by norm_num : (0:ℤ) ≤ 32767)] at h32
    · rw [hpk] at hmem
      have h32 := abs_le_listMaxAbs hmem
      rwa [abs_neg, abs_of_nonneg (by norm_num : (0:ℤ) ≤ 32767)] at h32

theorem normalize_16bit_length (s : List ℤ) :
    (normalize_16bit s).length = s.length := by
  unfold normalize_16bit
  by_cases he : s = []
  · rw [if_pos he]
  · rw [if_neg he]
    by_cases hm : listMaxAbs s ≤ 0
    · rw [if_pos hm]
    · rw [if_neg hm]
      exact List.length_map _ _

/-! ### Claim theorems: normalization (C5, C6, C10) -/

/-- C5: for every non-empty integer sample sequence whose maximum absolute
value is nonzero, `_normalize_16bit` returns a sequence of the same length
whose maximum absolute value is exactly 32767; for an empty or all-zero
sequence it returns the input unchanged. -/
theorem claim5_peak_invariant (s : List ℤ) :
    (s ≠ [] → listMaxAbs s ≠ 0 →
      (normalize_16bit s).length = s.length ∧ listMaxAbs (normalize_16bit s) = 32767)
    ∧ ((s = [] ∨ ∀ x ∈ s, x = 0) → normalize_16bit s = s) := by
  constructor
  · intro _ h
    exact ⟨normalize_16bit_length s, normalize_16bit_peak h⟩
  · rintro (rfl | hz)
    · rfl
    · exact normalize_16bit_of_maxAbs_eq_zero (listMaxAbs_of_all_zero hz)

/-- Witness for C5 at the concrete input `[3]`. -/
theorem claim5_witness :
    (normalize_16bit [3]).length = ([3] : List ℤ).length ∧
      listMaxAbs (normalize_16bit [3]) = 32767 :=
  (claim5_peak_invariant [3]).1 (by decide) (by decide)

/-- C6: `_normalize_16bit` is idempotent on every sample sequence with
nonzero maximum absolute value. -/
theorem claim6_normalize_idempotent (s : List ℤ) (h : listMaxAbs s ≠ 0) :
    normalize_16bit (normalize_16bit s) = normalize_16bit s := by
  have htM : listMaxAbs (normalize_16bit s) = 32767 := normalize_16bit_peak h
  have htne : normalize_16bit s ≠ [] := by
    intro h0
    rw [h0, listMaxAbs_nil] at htM
    exact absurd htM (by norm_num)
  have hbd := normalize_16bit_bounds h
  rw [normalize_16bit_eq_map htne (by rw [htM]; norm_num), htM]
  have hid : ∀ x ∈ normalize_16bit s,
      clamp16 (pyRound ((x : ℚ) * (32767 / ((32767 : ℤ) : ℚ)))) = x := by
    intro x hx
    have hb := hbd x hx
    have hone : (32767 : ℚ) / ((32767 : ℤ) : ℚ) = 1 := by norm_num
    rw [hone, mul_one, pyRound_intCast]
    exact clamp16_of_mem (by omega) hb.2
  rw [List.map_congr_left hid, List.map_id']

/-- Witness for C6 at the concrete input `[4, 1]`. -/
theorem claim6_witness :
    normalize_16bit (normalize_16bit [4, 1]) = normalize_16bit [4, 1] :=
  claim6_normalize_idempotent [4, 1] (by decide)

/-- C10: every element of a `_normalize_16bit` result lies in
`[-32768, 32767]`, so the `struct.pack` call in `_write_wav_samples` cannot
fail on a normalized list: `write_wav_samples` always succeeds on it. -/
theorem claim10_normalized_in_range (s : List ℤ) (nch sr : ℕ) :
    (normalize_16bit s).all fitsInt16 = true ∧
      (write_wav_samples nch sr (normalize_16bit s)).isSome = true := by
  have hall : (normalize_16bit s).all fitsInt16 = true := by
    rw [List.all_eq_true]
    intro y hy
    by_cases h : listMaxAbs s = 0
    · rw [normalize_16bit_of_maxAbs_eq_zero h] at hy
      rw [eq_zero_of_listMaxAbs_eq_zero h y hy]
      decide
    · have hb := normalize_16bit_bounds h y hy
      simp only [fitsInt16, Bool.and_eq_true, decide_eq_true_eq]
      exact ⟨by omega, hb.2⟩
  refine ⟨hall, ?_⟩
  unfold write_wav_samples
  rw [if_pos hall]
  rfl

/-! ### Claim theorems: refinement arithmetic (C1) -/

/-- C1 fails on the code: at target `[32767, 100]`, donor `[0, 0]`,
extracted `[32767, 0]`, the script (no clamp before normalization, so the
raw peak 65534 drives the scale factor 1/2) yields target `[32767, 50]`,
while the claimed clamp-then-normalize formula yields `[32767, 100]`. -/
theorem claim1_counterexample :
    refineCompute [32767, 100] [0, 0] [32767, 0] ≠
      refineComputeClaimed [32767, 100] [0, 0] [32767, 0] := by
  have h1 : refineCompute [32767, 100] [0, 0] [32767, 0] = ([32767, 50], [-32767, 0]) := by
    norm_num [refineCompute, List.take, List.zipWith, normalize_16bit, listMaxAbs,
      pyRound, clamp16, List.cons_ne_nil]
  have h2 : refineComputeClaimed [32767, 100] [0, 0] [32767, 0] =
      ([32767, 100], [-32767, 0]) := by
    norm_num [refineComputeClaimed, specAdd, specSub, List.take, List.zipWith, List.map,
      normalize_16bit, listMaxAbs, pyRound, clamp16, List.cons_ne_nil]
  rw [h1, h2]
  decide

/-- C1 (amended): for every pair of same-format stems and extracted
component, the refinement stage computes
`target_new = normalize_peak(add(target, extracted))` and
`donor_new = normalize_peak(subtract(donor, extracted))` over the common
trimmed length of the three signals; saturation to `[-32768, 32767]`
happens inside `normalize_peak` after rescaling, not before it, and both
results are persisted, overwriting the primary outputs. -/
theorem claim1_refinement_amended (g o e : Wav16)
    (h1 : (g.nch, g.sr) = (o.nch, o.sr)) (h2 : (o.nch, o.sr) = (e.nch, e.sr)) :
    refineStep g o e =
      some
        (normalize_16bit ((specAdd g.samples e.samples).take
            (min (min g.samples.length o.samples.length) e.samples.length)),
         normalize_16bit ((specSub o.samples e.samples).take
            (min (min g.samples.length o.samples.length) e.samples.length))) := by
  unfold refineStep
  rw [if_pos ⟨h1, h2⟩]
  unfold refineCompute specAdd specSub
  simp only [List.take_zipWith]

/-- Witness for C1 (amended) at concrete same-format stems. -/
theorem claim1_witness :
    refineStep ⟨2, 44100, [10, 20]⟩ ⟨2, 44100, [5]⟩ ⟨2, 44100, [1, 2, 3]⟩ =
      some
        (normalize_16bit ((specAdd [10, 20] [1, 2, 3]).take
            (min (min ([10, 20] : List ℤ).length ([5] : List ℤ).length)
              ([1, 2, 3] : List ℤ).length)),
         normalize_16bit ((specSub [5] [1, 2, 3]).take
            (min (min ([10, 20] : List ℤ).length ([5] : List ℤ).length)
              ([1, 2, 3] : List ℤ).length))) :=
  claim1_refinement_amended ⟨2, 44100, [10, 20]⟩ ⟨2, 44100, [5]⟩ ⟨2, 44100, [1, 2, 3]⟩ rfl rfl

/-! ### Claim theorems: cleanup arithmetic (C3) -/

theorem zipWith_zipWith_trim (F G : ℤ → ℤ → ℤ) (g p o : List ℤ) :
    List.zipWith F (g.take (min (min g.length p.length) o.length))
      (List.zipWith G (p.take (min (min g.length p.length) o.length))
        (o.take (min (min g.length p.length) o.length)))
    = List.zipWith F g (List.zipWith G p o) := by
  have hstep : List.zipWith F (g.take (min (min g.length p.length) o.length))
      (List.zipWith G (p.take (min (min g.length p.length) o.length))
        (o.take (min (min g.length p.length) o.length)))
      = (List.zipWith F g (List.zipWith G p o)).take
          (min (min g.length p.length) o.length) := by
    rw [List.take_zipWith, List.take_zipWith]
  rw [hstep]
  apply List.take_of_length_le
  rw [List.length_zipWith, List.length_zipWith]
  omega

/-- C3: the cleanup stage computes exactly
`normalize_peak(clamp16(scaled_subtract(target, leaked_b, leaked_c, alpha)))`
over the common trimmed length; the attenuation coefficient defaults to
`0.6` when the configured value is absent or unparsable; and on the spec's
Scenario 4 (`guitar = [1000]`, extracted piano `[100]`, extracted other
`[50]`, `alpha = 0.6`) the pre-normalization value is
`1000 - 0.6 * (100 + 50) = 910`. -/
theorem claim3_cleanup_formula :
    (∀ (alpha : ℚ) (g p o : List ℤ),
        cleanupCompute alpha g p o =
          normalize_16bit (List.map clamp16 (specScaledSub alpha g p o)))
    ∧ cleanupAlpha none = 3/5
    ∧ cleanupAlpha (some none) = 3/5
    ∧ (∀ a : ℚ, cleanupAlpha (some (some a)) = a)
    ∧ List.map clamp16 (specScaledSub (3/5) [1000] [100] [50]) = [910]
    ∧ cleanupCompute (3/5) [1000] [100] [50] = normalize_16bit [910] := by
  refine ⟨?_, rfl, rfl, fun a => rfl, ?_, ?_⟩
  · intro alpha g p o
    unfold cleanupCompute specScaledSub
    rw [List.map_zipWith]
    exact congrArg normalize_16bit (zipWith_zipWith_trim _ _ g p o)
  · norm_num [specScaledSub, List.zipWith, List.map, pyRound, clamp16]
  · norm_num [cleanupCompute, List.take, List.zipWith, List.length_cons, pyRound, clamp16]

/-! ### Claim theorems: codec round trip (C9) -/

theorem unpack_pack {s : ℤ} (h1 : -32768 ≤ s) (h2 : s ≤ 32767) :
    unpackInt16 ((s % 65536).toNat % 256) ((s % 65536).toNat / 256) = s := by
  unfold unpackInt16
  split <;> omega

theorem packFlatten_length (l : List ℤ) : ((l.map packInt16).flatten).length = 2 * l.length := by
  induction l with
  | nil => rfl
  | cons a t ih =>
    simp only [List.map_cons, List.flatten_cons, List.length_append, ih, packInt16,
      List.length_cons, List.length_nil]
    omega

theorem bytesToSamples_pack {l : List ℤ} (h : ∀ x ∈ l, -32768 ≤ x ∧ x ≤ 32767) :
    bytesToSamples ((l.map packInt16).flatten) = l := by
  induction l with
  | nil => rfl
  | cons a t ih =>
    have ha := h a (List.mem_cons_self a t)
    simp only [List.map_cons, List.flatten_cons, packInt16]
    rw [List.cons_append, List.cons_append, List.nil_append]
    rw [bytesToSamples]
    rw [unpack_pack ha.1 ha.2, ih fun x hx => h x (List.mem_cons_of_mem a hx)]

/-- C9: writing any in-range sample list whose length is a multiple of the
channel count with `_write_wav_samples` and reading it back with
`_load_wav_samples` returns exactly the original channel count, sample rate
and samples. -/
theorem claim9_codec_roundtrip (nch sr : ℕ) (samples : List ℤ)
    (hch : 1 ≤ nch) (hsr : 1 ≤ sr)
    (hmul : samples.length % nch = 0)
    (hrange : ∀ x ∈ samples, -32768 ≤ x ∧ x ≤ 32767) :
    (write_wav_samples nch sr samples).bind load_wav_samples = some (nch, sr, samples) := by
  have hall : samples.all fitsInt16 = true := by
    rw [List.all_eq_true]
    intro x hx
    simp only [fitsInt16, Bool.and_eq_true, decide_eq_true_eq]
    exact hrange x hx
  unfold write_wav_samples
  rw [if_pos hall]
  show load_wav_samples _ = _
  unfold load_wav_samples
  rw [if_pos rfl]
  have hdiv : (2 * samples.length) / (2 * nch) * (2 * nch) = 2 * samples.length := by
    rw [Nat.mul_div_mul_left samples.length nch (by omega)]
    have hc : samples.length / nch * nch = samples.length :=
      Nat.div_mul_cancel (Nat.dvd_of_mod_eq_zero hmul)
    calc samples.length / nch * (2 * nch) = 2 * (samples.length / nch * nch) := by ring
    _ = 2 * samples.length := by rw [hc]
  show some (nch, sr, bytesToSamples (((samples.map packInt16).flatten).take
      ((2 * samples.length) / (2 * nch) * (2 * nch)))) = _
  rw [hdiv]
  rw [List.take_of_length_le (le_of_eq (packFlatten_length samples))]
  rw [bytesToSamples_pack hrange]

/-- Witness for C9 at two channels, sample rate 8, four in-range samples. -/
theorem claim9_witness :
    (write_wav_samples 2 8 [1, -1, 300, -300]).bind load_wav_samples =
      some (2, 8, [1, -1, 300, -300]) :=
  claim9_codec_roundtrip 2 8 [1, -1, 300, -300] (by decide) (by decide) (by decide) (by decide)

/-! ### Claim theorems: padding (C8) -/

/-- C8: for a well-formed WAV header (positive sample rate, channel count
and sample width, byte count matching the frame count), an input of at
least 10 seconds is returned unchanged with nothing written; a shorter
input is padded with zero bytes so that its frame count becomes exactly
`int(10.0 * sample_rate) = 10 * sr`, preserving channel count, sample
width and sample rate. -/
theorem claim8_pad_audio (w : WavData) (hsr : 1 ≤ w.sr) (hch : 1 ≤ w.nch)
    (hsw : 1 ≤ w.sampw) (hlen : w.bytes.length = w.nframes * (w.sampw * w.nch)) :
    (10 * w.sr ≤ w.nframes → pad_audio_if_needed w = (false, w))
    ∧ (w.nframes < 10 * w.sr →
        (pad_audio_if_needed w).1 = true
        ∧ (pad_audio_if_needed w).2.nch = w.nch
        ∧ (pad_audio_if_needed w).2.sampw = w.sampw
        ∧ (pad_audio_if_needed w).2.sr = w.sr
        ∧ (pad_audio_if_needed w).2.bytes =
            w.bytes ++ List.replicate ((10 * w.sr - w.nframes) * (w.nch * w.sampw)) 0
        ∧ (pad_audio_if_needed w).2.nframes = 10 * w.sr) := by
  have hsrq : (0 : ℚ) < (w.sr : ℚ) := by
    have : 0 < w.sr := hsr
    exact_mod_cast this
  have hdur : (10 : ℚ) ≤ (if w.sr = 0 then (0 : ℚ) else (w.nframes : ℚ) / (w.sr : ℚ)) ↔
      10 * w.sr ≤ w.nframes := by
    rw [if_neg (by omega : ¬ w.sr = 0), le_div_iff₀ hsrq]
    constructor
    · intro h
      exact_mod_cast h
    · intro h
      exact_mod_cast h
  constructor
  · intro h
    unfold pad_audio_if_needed
    rw [if_pos (hdur.mpr h)]
  · intro h
    have htake : w.bytes.take (w.nframes * (w.sampw * w.nch)) = w.bytes := by
      rw [← hlen]
      exact List.take_length w.bytes
    have hk : ((10 : ℤ) * (w.sr : ℤ) - (w.nframes : ℤ)).toNat = 10 * w.sr - w.nframes := by
      omega
    have hpad : pad_audio_if_needed w =
        (true, ⟨w.nch, w.sampw, w.sr,
          (w.bytes.take (w.nframes * (w.sampw * w.nch)) ++
            List.replicate (((10 : ℤ) * (w.sr : ℤ) - (w.nframes : ℤ)).toNat * w.nch * w.sampw)
              0).length / (w.sampw * w.nch),
          w.bytes.take (w.nframes * (w.sampw * w.nch)) ++
            List.replicate (((10 : ℤ) * (w.sr : ℤ) - (w.nframes : ℤ)).toNat * w.nch * w.sampw)
              0⟩) := by
      unfold pad_audio_if_needed
      rw [if_neg (fun hc => absurd (hdur.mp hc) (by omega))]
      rw [if_neg (by omega : ¬((10 : ℤ) * (w.sr : ℤ) - (w.nframes : ℤ) ≤ 0))]
    rw [hpad]
    refine ⟨rfl, rfl, rfl, rfl, ?_, ?_⟩
    · show w.bytes.take (w.nframes * (w.sampw * w.nch)) ++ _ = _
      rw [htake, hk, Nat.mul_assoc]
    · show (w.bytes.take (w.nframes * (w.sampw * w.nch)) ++
          List.replicate (((10 : ℤ) * (w.sr : ℤ) - (w.nframes : ℤ)).toNat * w.nch * w.sampw)
            0).length / (w.sampw * w.nch) = 10 * w.sr
      rw [htake, List.length_append, List.length_replicate, hk, hlen]
      have hsum : w.nframes * (w.sampw * w.nch) + (10 * w.sr - w.nframes) * w.nch * w.sampw =
          (10 * w.sr) * (w.sampw * w.nch) := by
        have h2 : w.nframes + (10 * w.sr - w.nframes) = 10 * w.sr := by omega
        calc w.nframes * (w.sampw * w.nch) + (10 * w.sr - w.nframes) * w.nch * w.sampw
            = (w.nframes + (10 * w.sr - w.nframes)) * (w.sampw * w.nch) := by ring
        _ = (10 * w.sr) * (w.sampw * w.nch) := by rw [h2]
      rw [hsum]
      exact Nat.mul_div_cancel _ (by positivity)

/-- Witness for C8 at a 3-frame mono file with sample rate 4 (shorter than
10 seconds, so it is padded to 40 frames). -/
theorem claim8_witness :
    (pad_audio_if_needed ⟨1, 2, 4, 3, [1, 2, 3, 4, 5, 6]⟩).1 = true
    ∧ (pad_audio_if_needed ⟨1, 2, 4, 3, [1, 2, 3, 4, 5, 6]⟩).2.nch = 1
    ∧ (pad_audio_if_needed ⟨1, 2, 4, 3, [1, 2, 3, 4, 5, 6]⟩).2.sampw = 2
    ∧ (pad_audio_if_needed ⟨1, 2, 4, 3, [1, 2, 3, 4, 5, 6]⟩).2.sr = 4
    ∧ (pad_audio_if_needed ⟨1, 2, 4, 3, [1, 2, 3, 4, 5, 6]⟩).2.bytes =
        [1, 2, 3, 4, 5, 6] ++ List.replicate ((10 * 4 - 3) * (1 * 2)) 0
    ∧ (pad_audio_if_needed ⟨1, 2, 4, 3, [1, 2, 3, 4, 5, 6]⟩).2.nframes = 10 * 4 :=
  (claim8_pad_audio ⟨1, 2, 4, 3, [1, 2, 3, 4, 5, 6]⟩ (by decide) (by decide) (by decide)
    (by decide)).2 (by decide)

/-! ### Claim theorems: pipeline error handling and completeness (C2, C4) -/

/-- C2 fails on the code: the 4-stem pipeline `stem-split.py` has no
completeness-fill and no warning mechanism at all.  When the engine
succeeds but produces only the marker stem `vocals.wav`, the run prints the
success token with `drums`, `bass` and `other` missing and writes nothing
to the error stream. -/
theorem claim2_counterexample :
    (splitRun ⟨⟨0, "", ""⟩, true, true, false, false, false⟩).printedOk = true
    ∧ ¬(∀ r ∈ fourStemRoles,
        r ∈ (splitRun ⟨⟨0, "", ""⟩, true, true, false, false, false⟩).finalStems)
    ∧ (splitRun ⟨⟨0, "", ""⟩, true, true, false, false, false⟩).errLines = [] := by
  refine ⟨?_, ?_, ?_⟩ <;> decide

/-- C2 (amended): in the melody pipeline every run that prints the success
token ends with every configured role resolving to an existing file
(completeness-fill always has the marker stem `guitar.wav` as fill source);
the 4-stem pipeline performs no completeness-fill and reports no warning:
whenever it prints the success token, its final stems are exactly the
marker stem plus whichever stems the engine produced, with an empty error
stream.  No `PartialResultWarning` mechanism exists in the code. -/
theorem claim2_completeness_amended :
    (∀ e : MelodiesEnv, (melodiesRun e).printedOk = true →
        ∀ r ∈ melodiesRoles, r ∈ (melodiesRun e).finalStems)
    ∧ (∀ e : SplitEnv, (splitRun e).printedOk = true →
        (splitRun e).finalStems =
          ["vocals"] ++ (if e.hasDrums then ["drums"] else [])
            ++ (if e.hasBass then ["bass"] else [])
            ++ (if e.hasOther then ["other"] else [])
        ∧ (splitRun e).errLines = []) := by
  constructor
  · intro e hok r hr
    unfold melodiesRun at hok ⊢
    by_cases hc1 : e.primary.returncode ≠ 0
    · rw [if_pos hc1] at hok
      simp at hok
    · rw [if_neg hc1] at hok ⊢
      by_cases hc2 : e.htdemucsDirFound = false
      · rw [if_pos hc2] at hok
        simp at hok
      · rw [if_neg hc2] at hok ⊢
        by_cases hc3 : e.trackDirFound = false
        · rw [if_pos hc3] at hok
          simp at hok
        · rw [if_neg hc3]
          show r ∈ completenessFill (["guitar"]
            ++ (if e.hasPiano then ["piano"] else [])
            ++ (if e.hasOther then ["other"] else []))
          have hfind : melodiesRoles.find? (fun t => (["guitar"]
              ++ (if e.hasPiano then ["piano"] else [])
              ++ (if e.hasOther then ["other"] else [])).contains t) = some "guitar" := by
            unfold melodiesRoles
            apply List.find?_cons_of_pos
            simp
          unfold completenessFill
          rw [hfind]
          exact hr
  · intro e hok
    unfold splitRun at hok ⊢
    by_cases hc1 : e.primary.returncode ≠ 0
    · rw [if_pos hc1] at hok
      simp at hok
    · rw [if_neg hc1] at hok ⊢
      by_cases hc2 : e.htdemucsDirFound = false
      · rw [if_pos hc2] at hok
        simp at hok
      · rw [if_neg hc2] at hok ⊢
        by_cases hc3 : e.trackDirFound = false
        · rw [if_pos hc3] at hok
          simp at hok
        · rw [if_neg hc3]
          exact ⟨rfl, rfl⟩

/-- Witness for C2 (amended) at concrete environments: a melody run whose
engine produced only the marker stem, and a 4-stem run whose engine
produced all stems. -/
theorem claim2_witness :
    "other" ∈ (melodiesRun ⟨⟨0, "", ""⟩, true, true, false, false,
        ⟨0, "", ""⟩, true, true, false, ⟨0, "", ""⟩⟩).finalStems
    ∧ ((splitRun ⟨⟨0, "", ""⟩, true, true, true, true, true⟩).finalStems =
        ["vocals"] ++ (if true then ["drums"] else [])
          ++ (if true then ["bass"] else []) ++ (if true then ["other"] else [])
        ∧ (splitRun ⟨⟨0, "", ""⟩, true, true, true, true, true⟩).errLines = []) :=
  ⟨claim2_completeness_amended.1 ⟨⟨0, "", ""⟩, true, true, false, false,
      ⟨0, "", ""⟩, true, true, false, ⟨0, "", ""⟩⟩ (by decide) "other" (by decide),
   claim2_completeness_amended.2 ⟨⟨0, "", ""⟩, true, true, true, true, true⟩ (by decide)⟩

/-- C4: whenever the primary engine invocation returns a nonzero status,
both pipelines write the captured diagnostic (stderr, or stdout when stderr
is empty) to the error stream and exit with the engine's own exit code,
with no refinement, cleanup or completeness-fill attempted and no success
token printed. -/
theorem claim4_primary_failure (e : MelodiesEnv) (s : SplitEnv)
    (he : e.primary.returncode ≠ 0) (hs : s.primary.returncode ≠ 0) :
    melodiesRun e = ⟨e.primary.returncode, [diagOf e.primary], false, false, false, false, []⟩
    ∧ splitRun s = ⟨s.primary.returncode, [diagOf s.primary], false, false, false, false, []⟩ := by
  constructor
  · unfold melodiesRun
    rw [if_pos he]
  · unfold splitRun
    rw [if_pos hs]

/-- Witness for C4 at engine exit code 2 with diagnostic text on stderr. -/
theorem claim4_witness :
    melodiesRun ⟨⟨2, "boom", ""⟩, true, true, true, true, ⟨0, "", ""⟩, true, true,
        false, ⟨0, "", ""⟩⟩ =
      ⟨2, [diagOf ⟨2, "boom", ""⟩], false, false, false, false, []⟩
    ∧ splitRun ⟨⟨2, "boom", ""⟩, true, true, true, true, true⟩ =
      ⟨2, [diagOf ⟨2, "boom", ""⟩], false, false, false, false, []⟩ :=
  claim4_primary_failure _ _ (by decide) (by decide)

/-! ### Claim theorems: lead/backing classifier (C7) -/

theorem classifyStep_cases (f : OutFile) (l b : Option OutFile) :
    (classifyStep f l b = (some f, b) ∧ l = none)
    ∨ (classifyStep f l b = (l, some f) ∧ b = none)
    ∨ classifyStep f l b = (l, b) := by
  unfold classifyStep
  by_cases h1 : (l.isNone && leadMatch f.base) = true
  · rw [if_pos h1]
    simp only [Bool.and_eq_true] at h1
    exact Or.inl ⟨rfl, Option.isNone_iff_eq_none.mp h1.1⟩
  · rw [if_neg h1]
    by_cases h2 : (b.isNone && backMatch f.base) = true
    · rw [if_pos h2]
      simp only [Bool.and_eq_true] at h2
      exact Or.inr (Or.inl ⟨rfl, Option.isNone_iff_eq_none.mp h2.1⟩)
    · rw [if_neg h2]
      exact Or.inr (Or.inr rfl)

theorem classifyLoop_cons (f : OutFile) (fs : List OutFile) (l b : Option OutFile) :
    classifyLoop (f :: fs) l b =
      if (classifyStep f l b).1.isSome && (classifyStep f l b).2.isSome then classifyStep f l b
      else classifyLoop fs (classifyStep f l b).1 (classifyStep f l b).2 := rfl

theorem classifyLoop_ne_same {fs : List OutFile} :
    ∀ {l b : Option OutFile}, fs.Nodup →
      (∀ f, l = some f → f ∉ fs) →
      (∀ f, b = some f → f ∉ fs) →
      (∀ f, ¬(l = some f ∧ b = some f)) →
      ∀ f, classifyLoop fs l b ≠ (some f, some f) := by
  induction fs with
  | nil =>
    intro l b _ _ _ hlb f hf
    unfold classifyLoop at hf
    exact hlb f ⟨congrArg Prod.fst hf, congrArg Prod.snd hf⟩
  | cons a t ih =>
    intro l b hnd hl hb hlb f hf
    have hat : a ∉ t := (List.nodup_cons.mp hnd).1
    have hndt : t.Nodup := (List.nodup_cons.mp hnd).2
    rw [classifyLoop_cons] at hf
    rcases classifyStep_cases a l b with ⟨hs, hln⟩ | ⟨hs, hbn⟩ | hs <;> rw [hs] at hf
    · -- the head file has just become the lead candidate; backing is unchanged
      rcases hbv : b with _ | bb
      · rw [hbv, if_neg (by simp)] at hf
        refine ih hndt ?_ ?_ ?_ f hf
        · intro g hg
          rw [← Option.some_inj.mp hg]
          exact hat
        · intro g hg
          simp at hg
        · intro g ⟨hg1, hg2⟩
          simp at hg2
      · rw [hbv, if_pos (by simp)] at hf
        rw [Prod.mk.injEq] at hf
        have hfa : f = a := (Option.some_inj.mp hf.1).symm
        have : f ∉ a :: t := hb f (by rw [hbv, hf.2])
        exact this (hfa ▸ List.mem_cons_self a t)
    · -- the head file has just become the backing candidate; lead is unchanged
      rcases hlv : l with _ | ll
      · rw [hlv, if_neg (by simp)] at hf
        refine ih hndt ?_ ?_ ?_ f hf
        · intro g hg
          simp at hg
        · intro g hg
          rw [← Option.some_inj.mp hg]
          exact hat
        · intro g ⟨hg1, hg2⟩
          simp at hg1
      · rw [hlv, if_pos (by simp)] at hf
        rw [Prod.mk.injEq] at hf
        have hfa : f = a := (Option.some_inj.mp hf.2).symm
        have : f ∉ a :: t := hl f (by rw [hlv, hf.1])
        exact this (hfa ▸ List.mem_cons_self a t)
    · -- the head file matched neither role; both candidates are unchanged
      by_cases hbr : (l.isSome && b.isSome) = true
      · rw [if_pos hbr] at hf
        rw [Prod.mk.injEq] at hf
        exact hlb f ⟨hf.1, hf.2⟩
      · rw [if_neg hbr] at hf
        refine ih hndt ?_ ?_ ?_ f hf
        · intro g hg
          exact fun hm => hl g hg (List.mem_cons_of_mem a hm)
        · intro g hg
          exact fun hm => hb g hg (List.mem_cons_of_mem a hm)
        · exact hlb

/-- C7: with a duplicate-free set of produced files, the ordered substring
heuristics assign each file to at most one role (the loop never ends with
the same file as both lead and backing candidate); and whenever at least
two files exist and the heuristics left a role unassigned, the positional
fallback makes the first produced file lead and the second backing. -/
theorem claim7_classifier (fs : List OutFile) (hnd : fs.Nodup) :
    (∀ f, classifyLoop fs none none ≠ (some f, some f))
    ∧ (2 ≤ fs.length →
        ((classifyLoop fs none none).1 = none ∨ (classifyLoop fs none none).2 = none) →
        classifyFiles fs = (fs[0]?, fs[1]?)) := by
  constructor
  · exact classifyLoop_ne_same hnd (by simp) (by simp) (by simp)
  · intro hlen hnone
    match fs, hlen with
    | f0 :: f1 :: rest, _ =>
      show (if (classifyLoop (f0 :: f1 :: rest) none none).1 = none
          ∨ (classifyLoop (f0 :: f1 :: rest) none none).2 = none
          ∨ (classifyLoop (f0 :: f1 :: rest) none none).1 =
              (classifyLoop (f0 :: f1 :: rest) none none).2
        then (some f0, some f1)
        else classifyLoop (f0 :: f1 :: rest) none none) = _
      rw [if_pos (by tauto)]
      simp

/-- Witness for C7 at two distinct files matching none of the heuristics:
the fallback assigns the first to lead and the second to backing. -/
theorem claim7_witness :
    classifyFiles [⟨"/tmp/x.wav", "x.wav"⟩, ⟨"/tmp/y.wav", "y.wav"⟩] =
      (([⟨"/tmp/x.wav", "x.wav"⟩, ⟨"/tmp/y.wav", "y.wav"⟩] : List OutFile)[0]?,
       ([⟨"/tmp/x.wav", "x.wav"⟩, ⟨"/tmp/y.wav", "y.wav"⟩] : List OutFile)[1]?) :=
  (claim7_classifier [⟨"/tmp/x.wav", "x.wav"⟩, ⟨"/tmp/y.wav", "y.wav"⟩]
    (by decide)).2 (by decide) (Or.inl (by decide))
